import Mathlib

/-!
Shallow embedding of the AtlasBot word-chain prototype (src/script.js).

The JavaScript keeps two mutable globals, `used` (array of played normalized
words) and `lastLetter` (`null` or the one-character string produced by
`word.slice(-1)`); here they form an explicit `GameState`.  The word list
loaded from `wordlist.json` is a parameter `wordlist : List String`.
`Math.random()` is modelled by a rational parameter `r`, expected in `[0,1)`.
-/

namespace AtlasBot

/-- The character class of the regex `[a-z]` (code points 97..122). -/
def isAsciiLower (c : Char) : Bool := 97 ≤ c.toNat && c.toNat ≤ 122

/-- JavaScript `String.prototype.trim`: drop leading and trailing whitespace. -/
def jsTrim (s : String) : String :=
  String.mk (((s.data.dropWhile Char.isWhitespace).reverse.dropWhile
      Char.isWhitespace).reverse)

/-- Normalization from script.js (`normalizeInput`): `word.toLowerCase().replace(/[^a-z]/g, "")` —
lowercase, then keep only the characters `a`–`z`. -/
def normalizeInput (word : String) : String :=
  String.mk ((word.data.map Char.toLower).filter isAsciiLower)

/-- The mutable globals of script.js: `used` (play order preserved) and
`lastLetter` (`none` models JavaScript `null`; otherwise the single character
of `word.slice(-1)`). -/
structure GameState where
  used : List String
  lastLetter : Option Char
deriving DecidableEq, Repr

/-- The initial globals: `used = []`, `lastLetter = null`. -/
def initState : GameState := ⟨[], none⟩

/-- JavaScript `w[0] === lastLetter`: true exactly when `lastLetter` is a
character equal to the first character of `w` (`w[0]` is `undefined` on the
empty string, and `undefined === null` is false). -/
def firstIs (lastLetter : Option Char) (w : String) : Bool :=
  match lastLetter, w.data with
  | some c, ch :: _ => ch == c
  | _, _ => false

/-- The shared acceptance code of `playWord` and `botMove`:
`used.push(word); lastLetter = word.slice(-1)`.  `slice(-1)` of a non-empty
word is its last character; on the empty string it yields `""`, which is falsy
like `null`, hence `getLast?`. -/
def acceptWord (st : GameState) (w : String) : GameState :=
  ⟨st.used ++ [w], w.data.getLast?⟩

/-- Outcome of `playWord`, distinguishing the accepted word from the four
rejection messages the script can set. -/
inductive PlayResult where
  | accepted (word : String)
  | emptyInput
  | unknownWord
  | wordAlreadyUsed
  | letterMismatch
deriving DecidableEq, Repr

/-- The function `playWord` from script.js, as a function of the word list, the current
globals and the raw text-field input.  The four early `return`s leave the
globals untouched; success pushes the word and updates `lastLetter`. -/
def playWord (wordlist : List String) (st : GameState) (input : String) :
    GameState × PlayResult :=
  let normWord := normalizeInput (jsTrim input)
  if normWord = "" then (st, .emptyInput)
  else if normWord ∉ wordlist then (st, .unknownWord)
  else if normWord ∈ st.used then (st, .wordAlreadyUsed)
  else if st.lastLetter.isSome = true ∧ firstIs st.lastLetter normWord = false then
    (st, .letterMismatch)
  else (acceptWord st normWord, .accepted normWord)

/-- Outcome of `botMove`: the bot is stuck (the "You win!" message), a word was
played, or the array access was out of range (unreachable for
`Math.random() ∈ [0,1)`, where the access would yield `undefined`). -/
inductive BotResult where
  | playerWon
  | played (word : String)
  | indexError
deriving DecidableEq, Repr

/-- The candidate list of `botMove`:
`wordlist.filter(w => w[0] === lastLetter && !used.includes(w))`. -/
def botCandidates (wordlist : List String) (st : GameState) : List String :=
  wordlist.filter (fun w => firstIs st.lastLetter w && !(st.used.contains w))

/-- The index `Math.floor(r * n)` for a random draw `r`, kept as an integer so that a
draw outside `[0,1)` would produce an out-of-range index exactly as in
JavaScript. -/
def botIndex (r : ℚ) (n : ℕ) : ℤ := ⌊r * n⌋

/-- JavaScript array indexing `l[i]`: `none` (`undefined`) when `i` is out of
range. -/
def listAt (l : List String) (i : ℤ) : Option String :=
  if h : 0 ≤ i ∧ i.toNat < l.length then some (l.get ⟨i.toNat, h.2⟩) else none

/-- The function `botMove` from script.js: filter the candidates, declare the player the
winner when none remain, otherwise play `candidates[Math.floor(r * len)]`. -/
def botMove (wordlist : List String) (r : ℚ) (st : GameState) :
    GameState × BotResult :=
  let candidates := botCandidates wordlist st
  if candidates.length = 0 then (st, .playerWon)
  else
    match listAt candidates (botIndex r candidates.length) with
    | some botWord => (acceptWord st botWord, .played botWord)
    | none => (st, .indexError)

/-- States of the globals reachable by any sequence of accepted moves from the
initial state: player moves via `playWord`, bot moves via `botMove`. -/
inductive Reachable (wordlist : List String) : GameState → Prop where
  | init : Reachable wordlist initState
  | player {st st' : GameState} {input w : String} :
      Reachable wordlist st → playWord wordlist st input = (st', .accepted w) →
      Reachable wordlist st'
  | bot {st st' : GameState} {r : ℚ} {w : String} :
      Reachable wordlist st → botMove wordlist r st = (st', .played w) →
      Reachable wordlist st'

/-- Two consecutively played words chain: the later one starts with the last
character of the earlier one. -/
def chainNext (a b : String) : Prop := b.data.head? = a.data.getLast?

/-- The invariant tying the globals together: no duplicates, every played word
is a vocabulary member and non-empty, consecutive words chain, and
`lastLetter` is the last character of the most recently played word. -/
def GoodState (wordlist : List String) (st : GameState) : Prop :=
  st.used.Nodup ∧
  (∀ w ∈ st.used, w ∈ wordlist) ∧
  (∀ w ∈ st.used, w.data ≠ []) ∧
  List.Chain' chainNext st.used ∧
  st.lastLetter = st.used.getLast?.bind (fun w => w.data.getLast?)

/-! ### Basic lemmas about the embedded operations -/

lemma data_eq_nil_iff {s : String} : s.data = [] ↔ s = "" := by
  obtain ⟨l⟩ := s
  constructor
  · intro h
    have hl : l = [] := h
    subst hl
    rfl
  · intro h
    rw [h]

lemma toLower_of_isAsciiLower {c : Char} (h : isAsciiLower c = true) :
    c.toLower = c := by
  simp [isAsciiLower] at h
  simp [Char.toLower]
  omega

lemma mem_normalizeInput_isAsciiLower {s : String} {c : Char}
    (h : c ∈ (normalizeInput s).data) : isAsciiLower c = true :=
  (List.mem_filter.1 h).2

lemma filter_map_toLower_of_isAsciiLower (l : List Char)
    (h : ∀ c ∈ l, isAsciiLower c = true) :
    (l.map Char.toLower).filter isAsciiLower = l := by
  induction l with
  | nil => rfl
  | cons c t ih =>
    have hc : isAsciiLower c = true := h c (by simp)
    simp only [List.map_cons]
    rw [toLower_of_isAsciiLower hc, List.filter_cons_of_pos hc,
      ih (fun x hx => h x (by simp [hx]))]

lemma firstIs_none (w : String) : firstIs none w = false := by
  unfold firstIs
  cases w.data <;> rfl

lemma firstIs_some_iff {c : Char} {w : String} :
    firstIs (some c) w = true ↔ w.data.head? = some c := by
  unfold firstIs
  cases w.data <;> simp

lemma playWord_eq (wordlist : List String) (st : GameState) (input : String) :
    playWord wordlist st input =
      (if normalizeInput (jsTrim input) = "" then (st, .emptyInput)
      else if normalizeInput (jsTrim input) ∉ wordlist then (st, .unknownWord)
      else if normalizeInput (jsTrim input) ∈ st.used then (st, .wordAlreadyUsed)
      else if st.lastLetter.isSome = true ∧
          firstIs st.lastLetter (normalizeInput (jsTrim input)) = false then
        (st, .letterMismatch)
      else (acceptWord st (normalizeInput (jsTrim input)),
            .accepted (normalizeInput (jsTrim input)))) := rfl

lemma botMove_eq (wordlist : List String) (r : ℚ) (st : GameState) :
    botMove wordlist r st =
      (if (botCandidates wordlist st).length = 0 then (st, .playerWon)
       else
         match listAt (botCandidates wordlist st)
             (botIndex r (botCandidates wordlist st).length) with
         | some botWord => (acceptWord st botWord, .played botWord)
         | none => (st, .indexError)) := rfl

lemma playWord_accepted {wordlist : List String} {st st' : GameState}
    {input w : String}
    (h : playWord wordlist st input = (st', .accepted w)) :
    w = normalizeInput (jsTrim input) ∧ w ≠ "" ∧ w ∈ wordlist ∧ w ∉ st.used ∧
      (∀ c, st.lastLetter = some c → w.data.head? = some c) ∧
      st' = acceptWord st w := by
  rw [playWord_eq] at h
  split_ifs at h with h1 h2 h3 h4 <;> simp only [Prod.mk.injEq] at h <;>
    obtain ⟨hst, hres⟩ := h <;> try exact PlayResult.noConfusion hres
  injection hres with hw
  subst hw
  refine ⟨rfl, h1, by simpa using h2, h3, ?_, hst.symm⟩
  intro c hc
  rw [← firstIs_some_iff, ← hc]
  rcases hb : firstIs st.lastLetter (normalizeInput (jsTrim input)) with _ | _
  · exact absurd ⟨by simp [hc], hb⟩ h4
  · rfl

lemma listAt_mem {l : List String} {i : ℤ} {x : String}
    (h : listAt l i = some x) : x ∈ l := by
  unfold listAt at h
  split_ifs at h
  injection h with h'
  rw [← h']
  exact List.get_mem l _ _

lemma botMove_played {wordlist : List String} {r : ℚ} {st st' : GameState}
    {w : String} (h : botMove wordlist r st = (st', .played w)) :
    w ∈ botCandidates wordlist st ∧ st' = acceptWord st w := by
  rw [botMove_eq] at h
  split_ifs at h with h1
  · simp at h
  · rcases hl : listAt (botCandidates wordlist st)
        (botIndex r (botCandidates wordlist st).length) with _ | bw
    · rw [hl] at h
      simp at h
    · rw [hl] at h
      injection h with hst hres
      injection hres with hw
      subst hw
      exact ⟨listAt_mem hl, hst.symm⟩

lemma mem_botCandidates {wordlist : List String} {st : GameState} {w : String}
    (h : w ∈ botCandidates wordlist st) :
    w ∈ wordlist ∧ w ∉ st.used ∧
      ∃ c, st.lastLetter = some c ∧ w.data.head? = some c := by
  obtain ⟨hmem, hp⟩ := List.mem_filter.1 h
  simp only [Bool.and_eq_true, Bool.not_eq_true'] at hp
  obtain ⟨hfi, hcon⟩ := hp
  refine ⟨hmem, by simpa using hcon, ?_⟩
  rcases hll : st.lastLetter with _ | c
  · rw [hll, firstIs_none] at hfi
    cases hfi
  · exact ⟨c, rfl, firstIs_some_iff.1 (hll ▸ hfi)⟩

lemma botIndex_zero (n : ℕ) : botIndex 0 n = 0 := by simp [botIndex]

lemma botMove_zero (wordlist : List String) (st : GameState) :
    botMove wordlist 0 st =
      (match botCandidates wordlist st with
       | [] => (st, .playerWon)
       | w :: _ => (acceptWord st w, .played w)) := by
  rcases h : botCandidates wordlist st with _ | ⟨w, t⟩
  · simp [botMove, h]
  · simp only [botMove, h]
    rw [botIndex_zero]
    simp [listAt]

lemma botCandidates_of_lastLetter_none {wordlist : List String}
    {st : GameState} (h : st.lastLetter = none) :
    botCandidates wordlist st = [] := by
  unfold botCandidates
  rw [List.filter_eq_nil_iff]
  intro w _
  simp [h, firstIs_none]

lemma botMove_of_candidates_nil {wordlist : List String} {st : GameState}
    (r : ℚ) (h : botCandidates wordlist st = []) :
    botMove wordlist r st = (st, .playerWon) := by
  simp [botMove, h]

/-! ### The reachable-state invariant -/

lemma goodState_accept {wordlist : List String} {st : GameState} {w : String}
    (hg : GoodState wordlist st) (hwl : w ∈ wordlist) (hnu : w ∉ st.used)
    (hne : w.data ≠ [])
    (hfl : ∀ c, st.lastLetter = some c → w.data.head? = some c) :
    GoodState wordlist (acceptWord st w) := by
  obtain ⟨hnd, hmem, hnonempty, hchain, hlast⟩ := hg
  refine ⟨?_, ?_, ?_, ?_, ?_⟩
  · show (st.used ++ [w]).Nodup
    rw [List.nodup_append]
    refine ⟨hnd, List.nodup_singleton _, ?_⟩
    intro a ha hb
    rw [List.mem_singleton] at hb
    subst hb
    exact hnu ha
  · intro x hx
    rcases List.mem_append.1 hx with h | h
    · exact hmem x h
    · rw [List.mem_singleton.1 h]
      exact hwl
  · intro x hx
    rcases List.mem_append.1 hx with h | h
    · exact hnonempty x h
    · rw [List.mem_singleton.1 h]
      exact hne
  · show List.Chain' chainNext (st.used ++ [w])
    rw [List.chain'_append]
    refine ⟨hchain, List.chain'_singleton _, ?_⟩
    intro x hx y hy
    simp only [List.head?_cons, Option.mem_some_iff] at hy
    subst hy
    rw [Option.mem_def] at hx
    have hxmem : x ∈ st.used := by
      obtain ⟨ys, hys⟩ := List.getLast?_eq_some_iff.1 hx
      rw [hys]
      simp
    rcases hgl : x.data.getLast? with _ | c
    · exact absurd (List.getLast?_eq_none_iff.1 hgl) (hnonempty x hxmem)
    · have hll : st.lastLetter = some c := by
        rw [hlast, hx]
        simpa using hgl
      show w.data.head? = x.data.getLast?
      rw [hfl c hll, hgl]
  · show w.data.getLast? = ((st.used ++ [w]).getLast?.bind fun v => v.data.getLast?)
    rw [List.getLast?_concat]
    rfl

lemma reachable_good {wordlist : List String} {st : GameState}
    (h : Reachable wordlist st) : GoodState wordlist st := by
  induction h with
  | init =>
    exact ⟨List.nodup_nil, by simp [initState], by simp [initState],
      List.chain'_nil, rfl⟩
  | player hr hp ih =>
    obtain ⟨-, hne, hwl, hnu, hfl, hst⟩ := playWord_accepted hp
    rw [hst]
    exact goodState_accept ih hwl hnu (fun hd => hne (data_eq_nil_iff.1 hd)) hfl
  | bot hr hb ih =>
    obtain ⟨hcand, hst⟩ := botMove_played hb
    obtain ⟨hwl, hnu, c, hc, hhead⟩ := mem_botCandidates hcand
    rw [hst]
    refine goodState_accept ih hwl hnu ?_ ?_
    · intro hd
      rw [hd] at hhead
      cases hhead
    · intro c' hc'
      rw [hc'] at hc
      injection hc with hcc
      rw [hcc]
      exact hhead

/-! ### Further lemmas used by the claim theorems -/

/-- A `playWord` outcome that is not an acceptance. -/
def PlayResult.isRejection : PlayResult → Bool
  | .accepted _ => false
  | _ => true

lemma firstIs_some_false_iff {c : Char} {w : String} :
    firstIs (some c) w = false ↔ w.data.head? ≠ some c := by
  rw [← Bool.not_eq_true, firstIs_some_iff]

lemma firstIs_eq_head_beq (c : Char) (w : String) :
    firstIs (some c) w = (w.data.head? == some c) := by
  unfold firstIs
  cases w.data
  · rfl
  · simp

lemma botIndex_nonneg {r : ℚ} (h0 : 0 ≤ r) (n : ℕ) : 0 ≤ botIndex r n :=
  Int.le_floor.2 (by positivity)

lemma botIndex_toNat_lt {r : ℚ} (h0 : 0 ≤ r) (h1 : r < 1) {n : ℕ}
    (hn : 0 < n) : (botIndex r n).toNat < n := by
  have hn' : (0:ℚ) < n := by exact_mod_cast hn
  have hf : botIndex r n < (n : ℤ) := Int.floor_lt.2 (by push_cast; nlinarith)
  omega

lemma botMove_plays {wordlist : List String} {st : GameState} {r : ℚ}
    (h0 : 0 ≤ r) (h1 : r < 1) (hne : botCandidates wordlist st ≠ []) :
    ∃ w ∈ botCandidates wordlist st,
      botMove wordlist r st = (acceptWord st w, .played w) := by
  have hlen : 0 < (botCandidates wordlist st).length := List.length_pos.2 hne
  have hi0 : 0 ≤ botIndex r (botCandidates wordlist st).length :=
    botIndex_nonneg h0 _
  have hi1 : (botIndex r (botCandidates wordlist st).length).toNat <
      (botCandidates wordlist st).length := botIndex_toNat_lt h0 h1 hlen
  have hat : listAt (botCandidates wordlist st)
      (botIndex r (botCandidates wordlist st).length) =
      some ((botCandidates wordlist st).get ⟨_, hi1⟩) := by
    unfold listAt
    rw [dif_pos ⟨hi0, hi1⟩]
  refine ⟨(botCandidates wordlist st).get ⟨_, hi1⟩, List.get_mem _ _ _, ?_⟩
  rw [botMove_eq, if_neg (by omega), hat]

/-! ### Claim theorems -/

/-- C1: for every sequence of accepted moves (player moves via `playWord`, bot
moves via `botMove`), the played sequence `used` has no duplicates, every word
in it belongs to the vocabulary, and every word after the first begins with the
required letter in force when it was played (i.e. the last character of the
preceding word). -/
theorem played_words_nodup_member_chained {wordlist : List String}
    {st : GameState} (h : Reachable wordlist st) :
    st.used.Nodup ∧ (∀ w ∈ st.used, w ∈ wordlist) ∧
      List.Chain' chainNext st.used := by
  obtain ⟨h1, h2, -, h4, -⟩ := reachable_good h
  exact ⟨h1, h2, h4⟩

/-- C1 witness: the invariant instantiated at the reachable state after the
player plays "India" and the bot answers "afghanistan". -/
theorem played_words_nodup_member_chained_witness :
    (GameState.mk ["india", "afghanistan"] (some 'n')).used.Nodup ∧
      (∀ w ∈ (GameState.mk ["india", "afghanistan"] (some 'n')).used,
        w ∈ (["india", "afghanistan", "nepal"] : List String)) ∧
      List.Chain' chainNext
        (GameState.mk ["india", "afghanistan"] (some 'n')).used := by
  have h1 : playWord ["india", "afghanistan", "nepal"] initState "India" =
      (⟨["india"], some 'a'⟩, .accepted "india") := by decide
  have h2 : botMove ["india", "afghanistan", "nepal"] 0 ⟨["india"], some 'a'⟩ =
      (⟨["india", "afghanistan"], some 'n'⟩, .played "afghanistan") := by
    rw [botMove_zero]
    decide
  exact played_words_nodup_member_chained (.bot (.player .init h1) h2)

/-- C2: when `playWord` rejects the input, the state is returned unchanged, and
the reported failure kind characterizes exactly which of the four sequential
checks failed (empty normalization; unknown word; already used; letter
mismatch). -/
theorem rejection_leaves_state_unchanged (wordlist : List String)
    (st : GameState) (input : String) :
    ((playWord wordlist st input).2.isRejection = true →
      (playWord wordlist st input).1 = st) ∧
    ((playWord wordlist st input).2 = .emptyInput ↔
      normalizeInput (jsTrim input) = "") ∧
    ((playWord wordlist st input).2 = .unknownWord ↔
      normalizeInput (jsTrim input) ≠ "" ∧
        normalizeInput (jsTrim input) ∉ wordlist) ∧
    ((playWord wordlist st input).2 = .wordAlreadyUsed ↔
      normalizeInput (jsTrim input) ≠ "" ∧
        normalizeInput (jsTrim input) ∈ wordlist ∧
        normalizeInput (jsTrim input) ∈ st.used) ∧
    ((playWord wordlist st input).2 = .letterMismatch ↔
      normalizeInput (jsTrim input) ≠ "" ∧
        normalizeInput (jsTrim input) ∈ wordlist ∧
        normalizeInput (jsTrim input) ∉ st.used ∧
        st.lastLetter.isSome = true ∧
        firstIs st.lastLetter (normalizeInput (jsTrim input)) = false) := by
  rw [playWord_eq]
  split_ifs with h1 h2 h3 h4 <;> simp_all [PlayResult.isRejection]

/-- C2 witness: an unknown word is rejected and the state is unchanged. -/
theorem rejection_leaves_state_unchanged_witness :
    (playWord ["india"] initState "xyz").1 = initState :=
  (rejection_leaves_state_unchanged ["india"] initState "xyz").1 (by decide)

/-- C3: with a required letter in force, the bot's candidate set is exactly the
vocabulary entries whose first character is the required letter minus the
already-played words; on an empty candidate set `botMove` reports the player
won and changes nothing, and otherwise (for a draw in `[0,1)`) it plays some
word from the candidate set. -/
theorem botMove_candidate_set_correct (wordlist : List String)
    (st : GameState) (r : ℚ) (c : Char) (hll : st.lastLetter = some c)
    (h0 : 0 ≤ r) (h1 : r < 1) :
    botCandidates wordlist st =
      wordlist.filter (fun w => w.data.head? == some c && !(st.used.contains w)) ∧
    (botCandidates wordlist st = [] → botMove wordlist r st = (st, .playerWon)) ∧
    (botCandidates wordlist st ≠ [] →
      ∃ w ∈ botCandidates wordlist st,
        botMove wordlist r st = (acceptWord st w, .played w)) := by
  refine ⟨?_, botMove_of_candidates_nil r, botMove_plays h0 h1⟩
  unfold botCandidates
  rw [hll]
  exact List.filter_congr (fun w _ => by rw [firstIs_eq_head_beq])

/-- C3 witness: with required letter 'a', one candidate remains and is
played. -/
theorem botMove_candidate_set_correct_witness :
    ∃ w ∈ botCandidates ["india", "afghanistan", "nepal"]
        ⟨["india"], some 'a'⟩,
      botMove ["india", "afghanistan", "nepal"] 0 ⟨["india"], some 'a'⟩ =
        (acceptWord ⟨["india"], some 'a'⟩ w, .played w) :=
  (botMove_candidate_set_correct ["india", "afghanistan", "nepal"]
    ⟨["india"], some 'a'⟩ 0 'a' rfl (by norm_num) (by norm_num)).2.2 (by decide)

/-- C4 counterexample: the claimed biconditional "fails with LetterMismatch iff
a previous word exists and the input's first character differs from the
required letter" is false as stated: with vocabulary ["aa"], after "aa" is
played (required letter 'a'), the input "bb" has a first character differing
from 'a' and a previous word exists, yet `playWord` fails with UnknownWord,
not LetterMismatch. -/
theorem playWord_letterMismatch_iff_fails :
    Reachable ["aa"] ⟨["aa"], some 'a'⟩ ∧
    (GameState.mk ["aa"] (some 'a')).lastLetter = some 'a' ∧
    (normalizeInput (jsTrim "bb")).data.head? ≠ some 'a' ∧
    (playWord ["aa"] ⟨["aa"], some 'a'⟩ "bb").2 = .unknownWord ∧
    (playWord ["aa"] ⟨["aa"], some 'a'⟩ "bb").2 ≠ .letterMismatch := by
  have hmove : playWord ["aa"] initState "aa" =
      (⟨["aa"], some 'a'⟩, .accepted "aa") := by decide
  exact ⟨.player .init hmove, by decide, by decide, by decide, by decide⟩

/-- C4 (amended): for a vocabulary without the empty word, `playWord` fails
with UnknownWord iff the normalized input is non-empty and not in the
vocabulary; with WordAlreadyUsed iff it is in the vocabulary but already
played; with LetterMismatch iff it is in the vocabulary, not already played, a
previous word exists and the input's first character differs from the required
letter; and on the first move (no required letter) any unused vocabulary entry
is accepted. -/
theorem playWord_failure_characterization (wordlist : List String)
    (st : GameState) (input : String) (hne : "" ∉ wordlist) :
    ((playWord wordlist st input).2 = .unknownWord ↔
      normalizeInput (jsTrim input) ≠ "" ∧
        normalizeInput (jsTrim input) ∉ wordlist) ∧
    ((playWord wordlist st input).2 = .wordAlreadyUsed ↔
      normalizeInput (jsTrim input) ∈ wordlist ∧
        normalizeInput (jsTrim input) ∈ st.used) ∧
    ((playWord wordlist st input).2 = .letterMismatch ↔
      normalizeInput (jsTrim input) ∈ wordlist ∧
        normalizeInput (jsTrim input) ∉ st.used ∧
        ∃ c, st.lastLetter = some c ∧
          (normalizeInput (jsTrim input)).data.head? ≠ some c) ∧
    (st.lastLetter = none →
      ((playWord wordlist st input).2 =
          .accepted (normalizeInput (jsTrim input)) ↔
        normalizeInput (jsTrim input) ∈ wordlist ∧
          normalizeInput (jsTrim input) ∉ st.used)) := by
  rw [playWord_eq]
  split_ifs with h1 h2 h3 h4
  · simp [h1, hne]
  · refine ⟨by simp [h2], by simp [h2, h3], by simp [h3], fun hnone => by simp [h3]⟩
  · obtain ⟨hsome, hfalse⟩ := h4
    obtain ⟨c, hc⟩ := Option.isSome_iff_exists.1 hsome
    have hhead : (normalizeInput (jsTrim input)).data.head? ≠ some c :=
      firstIs_some_false_iff.1 (hc ▸ hfalse)
    refine ⟨by simp [h2], by simp [h3], ?_, ?_⟩
    · exact ⟨fun _ => ⟨h2, h3, c, hc, hhead⟩, fun _ => rfl⟩
    · intro hnone
      rw [hnone] at hc
      cases hc
  · refine ⟨by simp [h2], by simp [h3], ?_, fun hnone => by simp [h2, h3]⟩
    constructor
    · intro hcontra
      exact absurd hcontra (by simp)
    · rintro ⟨-, -, c, hc, hhead⟩
      rw [not_and] at h4
      have hfi := h4 (by simp [hc])
      rw [Bool.not_eq_false, hc] at hfi
      exact absurd (firstIs_some_iff.1 hfi) hhead
  · simp [h1, h2]

/-- C4 witness: with vocabulary ["india"] and a fresh game, the unknown input
"xyz" is reported as UnknownWord. -/
theorem playWord_failure_characterization_witness :
    (playWord ["india"] initState "xyz").2 = PlayResult.unknownWord :=
  ((playWord_failure_characterization ["india"] initState "xyz"
    (by decide)).1).2 ⟨by decide, by decide⟩

/-- C5: every accepted move (player or bot) appends the word to the end of the
played sequence and sets the required letter to the word's last character;
consequently, in any reachable state with at least one played word, the
required letter equals the last character of the most recently played word. -/
theorem accepted_move_updates_state :
    (∀ (wordlist : List String) (st st' : GameState) (input w : String),
        playWord wordlist st input = (st', .accepted w) →
        st'.used = st.used ++ [w] ∧ w.data ≠ [] ∧
          st'.lastLetter = w.data.getLast?) ∧
    (∀ (wordlist : List String) (r : ℚ) (st st' : GameState) (w : String),
        botMove wordlist r st = (st', .played w) →
        st'.used = st.used ++ [w] ∧ w.data ≠ [] ∧
          st'.lastLetter = w.data.getLast?) ∧
    (∀ (wordlist : List String) (st : GameState), Reachable wordlist st →
        ∀ w, st.used.getLast? = some w → st.lastLetter = w.data.getLast?) := by
  refine ⟨?_, ?_, ?_⟩
  · intro wordlist st st' input w h
    obtain ⟨-, hne, -, -, -, hst⟩ := playWord_accepted h
    exact ⟨by rw [hst]; rfl, fun hd => hne (data_eq_nil_iff.1 hd), by rw [hst]; rfl⟩
  · intro wordlist r st st' w h
    obtain ⟨hcand, hst⟩ := botMove_played h
    obtain ⟨-, -, c, -, hhead⟩ := mem_botCandidates hcand
    refine ⟨by rw [hst]; rfl, ?_, by rw [hst]; rfl⟩
    intro hd
    rw [hd] at hhead
    cases hhead
  · intro wordlist st hr w hw
    obtain ⟨-, -, -, -, hlast⟩ := reachable_good hr
    rw [hlast, hw]
    rfl

/-- C5 witness: accepting "India" in a fresh game appends "india" and sets the
required letter to its last character. -/
theorem accepted_move_updates_state_witness :
    (GameState.mk ["india"] (some 'a')).used = initState.used ++ ["india"] ∧
      ("india" : String).data ≠ [] ∧
      (GameState.mk ["india"] (some 'a')).lastLetter =
        ("india" : String).data.getLast? :=
  accepted_move_updates_state.1 ["india"] initState ⟨["india"], some 'a'⟩
    "India" "india" (by decide)

/-- C6 counterexample: the prototype keeps no turn state, so the claim fails
in general: right after the bot has played (so the game is awaiting a player
move, not a bot move), another call to `botMove` plays a further word and
mutates the state. -/
theorem botMove_mutates_on_player_turn :
    botMove ["ab", "ba", "ac"] 0 ⟨["ab"], some 'b'⟩ =
      (⟨["ab", "ba"], some 'a'⟩, .played "ba") ∧
    botMove ["ab", "ba", "ac"] 0 ⟨["ab", "ba"], some 'a'⟩ =
      (⟨["ab", "ba", "ac"], some 'c'⟩, .played "ac") ∧
    (⟨["ab", "ba", "ac"], some 'c'⟩ : GameState) ≠ ⟨["ab", "ba"], some 'a'⟩ := by
  refine ⟨?_, ?_, by decide⟩ <;> (rw [botMove_zero]; decide)

/-- C6 (amended): `botMove` leaves the state unchanged when invoked before any
accepted move (no required letter yet, so the JavaScript comparison
`w[0] === null` makes the candidate set empty) and whenever the candidate set
is empty (in particular after the game has reached the player-won outcome);
but since the prototype tracks no turn, a call during the player's turn with a
non-empty candidate set does play a word. -/
theorem botMove_noop_cases :
    (∀ (wordlist : List String) (r : ℚ) (st : GameState),
        st.lastLetter = none → botMove wordlist r st = (st, .playerWon)) ∧
    (∀ (wordlist : List String) (r : ℚ) (st : GameState),
        botCandidates wordlist st = [] →
        botMove wordlist r st = (st, .playerWon)) := by
  constructor
  · intro wordlist r st h
    exact botMove_of_candidates_nil r (botCandidates_of_lastLetter_none h)
  · intro wordlist r st h
    exact botMove_of_candidates_nil r h

/-- C6 witness: calling the bot on a fresh game changes nothing. -/
theorem botMove_noop_cases_witness :
    botMove ["india"] 0 initState = (initState, .playerWon) :=
  botMove_noop_cases.1 ["india"] 0 initState rfl

/-- C7: normalization lowercases the input and then removes every character
that is not a lowercase Latin letter, so every character of the result lies in
`a`–`z`; an input whose normalization is empty is rejected by `playWord` as
empty input. -/
theorem normalizeInput_rule (s : String) (wordlist : List String)
    (st : GameState) :
    normalizeInput s =
      String.mk ((s.data.map Char.toLower).filter isAsciiLower) ∧
    (∀ c ∈ (normalizeInput s).data, 'a' ≤ c ∧ c ≤ 'z') ∧
    (normalizeInput (jsTrim s) = "" →
      playWord wordlist st s = (st, .emptyInput)) := by
  refine ⟨rfl, ?_, ?_⟩
  · intro c hc
    have h := mem_normalizeInput_isAsciiLower hc
    simp only [isAsciiLower, Bool.and_eq_true, decide_eq_true_eq] at h
    exact ⟨h.1, h.2⟩
  · intro h
    rw [playWord_eq, if_pos h]

/-- C7 witness: an input with no Latin letters normalizes to the empty string
and is rejected. -/
theorem normalizeInput_rule_witness :
    playWord ["india"] initState " 42!? " = (initState, .emptyInput) :=
  (normalizeInput_rule " 42!? " ["india"] initState).2.2 (by decide)

/-- C8: normalization is idempotent: normalizing an already-normalized string
changes nothing. -/
theorem normalizeInput_idempotent (x : String) :
    normalizeInput (normalizeInput x) = normalizeInput x := by
  show String.mk _ = _
  rw [filter_map_toLower_of_isAsciiLower _
    (fun c hc => mem_normalizeInput_isAsciiLower hc)]

/-- C9: for a random draw `r ∈ [0,1)` and a non-empty candidate list, the
index `Math.floor(r * candidates.length)` is in bounds, so the bot's selected
word is an element of the candidate list and the array access never yields
`undefined`. -/
theorem bot_random_index_in_bounds (wordlist : List String) (st : GameState)
    (r : ℚ) (h0 : 0 ≤ r) (h1 : r < 1)
    (hne : botCandidates wordlist st ≠ []) :
    0 ≤ botIndex r (botCandidates wordlist st).length ∧
    (botIndex r (botCandidates wordlist st).length).toNat <
      (botCandidates wordlist st).length ∧
    ∃ w ∈ botCandidates wordlist st,
      botMove wordlist r st = (acceptWord st w, .played w) :=
  ⟨botIndex_nonneg h0 _,
   botIndex_toNat_lt h0 h1 (List.length_pos.2 hne),
   botMove_plays h0 h1 hne⟩

/-- C9 witness: the in-bounds selection at a concrete state with one
candidate. -/
theorem bot_random_index_in_bounds_witness :
    0 ≤ botIndex 0 (botCandidates ["india", "afghanistan"]
        ⟨["india"], some 'a'⟩).length ∧
    (botIndex 0 (botCandidates ["india", "afghanistan"]
        ⟨["india"], some 'a'⟩).length).toNat <
      (botCandidates ["india", "afghanistan"] ⟨["india"], some 'a'⟩).length ∧
    ∃ w ∈ botCandidates ["india", "afghanistan"] ⟨["india"], some 'a'⟩,
      botMove ["india", "afghanistan"] 0 ⟨["india"], some 'a'⟩ =
        (acceptWord ⟨["india"], some 'a'⟩ w, .played w) :=
  bot_random_index_in_bounds ["india", "afghanistan"] ⟨["india"], some 'a'⟩ 0
    (by norm_num) (by norm_num) (by decide)

/-- C10: if every vocabulary entry consists of characters in `a`–`z` (as the
pre-normalized word list guarantees), then in any reachable state the required
letter, once set, is a lowercase Latin letter. -/
theorem lastLetter_is_lowercase (wordlist : List String) (st : GameState)
    (c : Char)
    (hwf : ∀ w ∈ wordlist, ∀ ch ∈ w.data, isAsciiLower ch = true)
    (hr : Reachable wordlist st) (hc : st.lastLetter = some c) :
    'a' ≤ c ∧ c ≤ 'z' := by
  obtain ⟨-, hmem, hnonempty, -, hlast⟩ := reachable_good hr
  rw [hc] at hlast
  rcases hgl : st.used.getLast? with _ | w
  · rw [hgl] at hlast
    cases hlast
  · rw [hgl] at hlast
    have hw : w ∈ st.used := by
      obtain ⟨ys, h⟩ := List.getLast?_eq_some_iff.1 hgl
      rw [h]
      simp
    have hcm : c ∈ w.data := by
      obtain ⟨ys, h⟩ := List.getLast?_eq_some_iff.1
        (show w.data.getLast? = some c from by simpa using hlast.symm)
      rw [h]
      simp
    have h := hwf w (hmem w hw) c hcm
    simp only [isAsciiLower, Bool.and_eq_true, decide_eq_true_eq] at h
    exact ⟨h.1, h.2⟩

/-- C10 witness: after the single accepted move "ab", the required letter 'b'
is a lowercase letter. -/
theorem lastLetter_is_lowercase_witness : 'a' ≤ 'b' ∧ 'b' ≤ 'z' := by
  have hmove : playWord ["ab"] initState "ab" =
      (⟨["ab"], some 'b'⟩, .accepted "ab") := by decide
  exact lastLetter_is_lowercase ["ab"] ⟨["ab"], some 'b'⟩ 'b' (by decide)
    (.player .init hmove) rfl

end AtlasBot
